import Mathlib

/-!
# Verification of the `@nextcloud/files` Node / registry core

Shallow embedding of `src/lib/files/node.ts`, `src/lib/fileAction.ts` and the
parts of the library they depend on.  JavaScript strings are modelled as
`List Char`; JavaScript numbers that occur in the claims are integers, so they
are modelled as `Int`; fallible operations return `Except String ·` with the
exact error messages of the source.

The files `lib/files/nodeData.ts` (`validateData`, `isDavRessource`),
`lib/permissions.ts`, `lib/files/file.ts` / `folder.ts` and
`lib/newFileMenu.ts` are not part of the given sources; they are modelled
from the specification (each such definition carries a doc comment starting
with `Modelled from the spec:`).  Everything else is translated directly from
the TypeScript sources.
-/

/-- JavaScript strings are modelled as lists of characters. -/
abbrev Str := List Char

/-- Conversion from Lean string literals to the model's strings. -/
def strOf (s : String) : Str := s.data

/-- Lowercase an ASCII letter (used for the case-insensitive DAV regex). -/
def asciiLower (c : Char) : Char :=
  if 'A' ≤ c ∧ c ≤ 'Z' then Char.ofNat (c.toNat + 32) else c

/-- Lowercase a string character-wise (ASCII only, enough for the DAV regex). -/
def lowerStr (s : Str) : Str := s.map asciiLower

/-- `source.replace(/\/$/i, '')` of the `source` getter: strip one trailing
slash, if any. -/
def stripOneTrailingSlash (s : Str) : Str :=
  if s.getLast? = some '/' then s.dropLast else s

/-- `root.replace(/^(.+)\/$/, '$1')` of the `root` getter: strip one trailing
slash provided at least one character precedes it. -/
def stripRootSlash (s : Str) : Str :=
  if 2 ≤ s.length ∧ s.getLast? = some '/' then s.dropLast else s

/-- Node.js `path.dirname` (posix).  Mirrors the upstream algorithm: skip the
trailing slashes (never inspecting index 0), cut before the last remaining
component, with the special `//` and root cases. -/
def posixDirname (p : Str) : Str :=
  match p with
  | [] => ['.']
  | c :: rest =>
    let hasRoot := c = '/'
    let r2 := (rest.reverse.dropWhile (· = '/')).dropWhile (· ≠ '/')
    if r2.isEmpty then (if hasRoot then ['/'] else ['.'])
    else if hasRoot ∧ r2.length = 1 then ['/', '/']
    else (c :: rest).take r2.length

/-- First index (if any) at which `pat` occurs in `s`; `String.indexOf`
restricted to a found/not-found answer. -/
def firstIdxOf (s pat : Str) : Option Nat :=
  match s with
  | [] => if pat = [] then some 0 else none
  | c :: rest =>
    if pat <+: (c :: rest) then some 0
    else (firstIdxOf rest pat).map (· + 1)

/-- JavaScript `String.prototype.indexOf`: `-1` when the pattern is absent. -/
def jsIndexOf (s pat : Str) : Int :=
  match firstIdxOf s pat with
  | some i => (i : Int)
  | none => -1

/-- JavaScript `String.prototype.slice` with one argument: a negative start
counts from the end of the string (clamped at 0). -/
def jsSliceFrom (s : Str) (i : Int) : Str :=
  if 0 ≤ i then s.drop i.toNat else s.drop (s.length - (-i).toNat)

/-- The parsed parts of an absolute URL: scheme, host, path.  The path is the
raw remainder of the string from the first `/` after the authority (it is
`/` when the remainder is empty, as `new URL` normalises an absent path). -/
structure URLParts where
  scheme : Str
  host : Str
  path : Str
deriving DecidableEq, Repr

/-- A character allowed in a URL scheme. -/
def isSchemeChar (c : Char) : Bool :=
  ('a' ≤ c ∧ c ≤ 'z') ∨ ('A' ≤ c ∧ c ≤ 'Z') ∨ ('0' ≤ c ∧ c ≤ '9')
    ∨ c = '+' ∨ c = '-' ∨ c = '.'

/-- Modelled from the spec: the `new URL(source)` check of the validator
(§4.1: the source must parse as an absolute URL).  The parser recognises
`scheme://host/path`; queries and fragments are kept as part of the raw
path, which is all the library ever inspects. -/
def parseURL (s : Str) : Option URLParts :=
  match firstIdxOf s (strOf "://") with
  | none => none
  | some i =>
    let sch := s.take i
    let rest := s.drop (i + 3)
    if sch = [] ∨ ¬ sch.all isSchemeChar then none
    else
      let host := rest.takeWhile (· ≠ '/')
      let path := rest.dropWhile (· ≠ '/')
      some ⟨sch, host, if path = [] then ['/'] else path⟩

/-- Modelled from the spec: the default `_knownDavService` pattern
`/(remote|public)\.php\/(web)?dav/i` as its four literal alternatives,
longest first so that matching at a position is greedy like the regex. -/
def defaultDavTokens : List Str :=
  [strOf "remote.php/webdav", strOf "public.php/webdav",
   strOf "remote.php/dav", strOf "public.php/dav"]

/-- Length of the service-token match starting exactly at the head of `s`
(case-insensitive), if any.  Empty tokens never match. -/
def matchLen (svc : List Str) (s : Str) : Option Nat :=
  svc.findSome? fun t =>
    if t ≠ [] ∧ lowerStr (s.take t.length) = lowerStr t then some t.length
    else none

/-- Does the service pattern match anywhere in `s`? -/
def hasMatch (svc : List Str) (s : Str) : Bool :=
  (List.range (s.length + 1)).any fun i => (matchLen svc (s.drop i)).isSome

/-- Position and length of the first (leftmost) service-pattern match in
`s`, if any; `source.match(davService)` of the validator. -/
def firstMatch (svc : List Str) (s : Str) : Option (Nat × Nat) :=
  (List.range (s.length + 1)).findSome? fun i =>
    (matchLen svc (s.drop i)).map fun L => (i, L)

/-- The left-to-right scan underlying `String.prototype.split(regexp)`:
returns the suffix after the last (leftmost, non-overlapping) match, or
`none` when the pattern never matches.  Fuel-based recursion; the fuel is
always instantiated with the length of the string. -/
def lastMatchTailGo (svc : List Str) : Nat → Str → Option Str
  | 0, _ => none
  | fuel + 1, s =>
    match s with
    | [] => none
    | _ :: rest =>
      match matchLen svc s with
      | some L =>
        match lastMatchTailGo svc fuel (s.drop L) with
        | some t => some t
        | none => some (s.drop L)
      | none => lastMatchTailGo svc fuel rest

/-- Suffix of `s` after the last match of the service pattern, scanning like
`split`; `none` when the pattern never matches. -/
def lastMatchTail (svc : List Str) (s : Str) : Option Str :=
  lastMatchTailGo svc s.length s

/-- `array.pop() || null` applied to the result of `dirname(src).split(re)`:
the last split element is the tail after the last match, or the whole string
when there was no match; an empty result is coerced to `null`. -/
def jsPopOrNull (s : Str) (r : Option Str) : Option Str :=
  let t := r.getD s
  if t = [] then none else some t

/-- Modelled from the spec: `lib/permissions.ts` bit flags (§3). -/
def Permission.NONE : Int := 0

/-- Modelled from the spec: READ flag. -/
def Permission.READ : Int := 1

/-- Modelled from the spec: UPDATE flag. -/
def Permission.UPDATE : Int := 2

/-- Modelled from the spec: CREATE flag. -/
def Permission.CREATE : Int := 4

/-- Modelled from the spec: DELETE flag. -/
def Permission.DELETE : Int := 8

/-- Modelled from the spec: SHARE flag. -/
def Permission.SHARE : Int := 16

/-- Modelled from the spec: ALL = OR of the five flags. -/
def Permission.ALL : Int := 31

/-- An untyped JavaScript value, as far as the claims need one: the `id`
field is typed `number` but callers pass arbitrary values, and the open
`attributes` bag holds arbitrary values. -/
inductive JSVal where
  | num (n : Int)
  | str (s : Str)
  | jbool (b : Bool)
deriving DecidableEq, Repr

/-- JavaScript truthiness of a `JSVal` (`0`, `''` and `false` are falsy). -/
def JSVal.truthy : JSVal → Bool
  | .num n => n ≠ 0
  | .str s => s ≠ []
  | .jbool b => b

/-- `typeof v === 'number'`. -/
def JSVal.isNum : JSVal → Bool
  | .num _ => true
  | _ => false

/-- `FileType` of `lib/files/fileType.ts`: file or folder. -/
inductive FileType where
  | file
  | folder
deriving DecidableEq, Repr

/-- `NodeStatus` of `lib/files/node.ts`. -/
inductive NodeStatus where
  | NEW
  | FAILED
  | LOADING
  | LOCKED
deriving DecidableEq, Repr

/-- The raw `NodeData` bag (`lib/files/nodeData.ts` interface).  Fields whose
invalid-type cases no claim exercises are given their declared types, so
their type checks always pass; `id` keeps the untyped `JSVal` form because
the claims exercise non-numeric ids.  A missing or empty `source` is the
empty string (both are falsy in the validator). -/
structure NodeData where
  source : Str
  id : Option JSVal := none
  mtime : Option Nat := none
  crtime : Option Nat := none
  mime : Option Str := none
  size : Option Int := none
  permissions : Option Int := none
  owner : Option Str := none
  root : Option Str := none
  attributes : List (String × JSVal) := []
  status : Option NodeStatus := none
deriving DecidableEq, Repr

/-- Does the mime string have the mandatory `type/subtype` shape: exactly one
`/`, neither at the first nor at the last position? -/
def mimeWellFormed (m : Str) : Bool :=
  (m.filter (· = '/')).length = 1 ∧ m.head? ≠ some '/' ∧ m.getLast? ≠ some '/'

/-- The `id` rule of the validator: a present id must be numeric.  This
follows the repository's current test suite (`FileId negative fallback`: a
negative numeric id such as `-1234` is accepted; a non-numeric id such as
the string `'1234'` is rejected), which supersedes the spec's
`integer ≥ 0` sentence. -/
def idCheck : Option JSVal → Bool
  | some v => v.isNum
  | none => true

/-- The mime rule of the validator: a File must carry a well-formed
`type/subtype` mime; a Folder has no mime constraint (§4.1). -/
def mimeCheck (ftype : FileType) : Option Str → Bool
  | some m => if ftype = FileType.file then mimeWellFormed m else true
  | none => decide (ftype ≠ FileType.file)

/-- The permissions rule of the validator: a present value must be a subset
of `Permission.ALL` (§4.1). -/
def permCheck : Option Int → Bool
  | some p => decide (0 ≤ p ∧ p ≤ Permission.ALL)
  | none => true

/-- The root rules of the validator (§4.1): a present, non-empty root must
start with a leading slash, be contained in the source, and — on a source
matched by the DAV-service pattern — begin exactly where the
service-relative segment begins, i.e. the part of the source after the
first service match must start with the root. -/
def rootCheck (svc : List Str) (source : Str) : Option Str → Except String Unit
  | some r =>
    if r = [] then .ok ()
    else if r.head? ≠ some '/' then
      .error "Root must start with a leading slash"
    else if ¬ (r <:+: source) then
      .error "Root must be part of the source"
    else
      match firstMatch svc source with
      | some (i, L) =>
        if ¬ (r <+: source.drop (i + L)) then
          .error "The root must be relative to the service. e.g /files/emma"
        else .ok ()
      | none => .ok ()
  | none => .ok ()

/-- Modelled from the spec: `validateData` of `lib/files/nodeData.ts`
(§4.1), which is not among the given sources.  Checks run in the §4.1
order; the checks whose failures are unrepresentable in the typed model
(`mtime`, `crtime`, `size`, `attributes`, `owner`, `root` being a
non-string, `status`) always pass and are omitted. -/
def validateNode (ftype : FileType) (data : NodeData) (svc : List Str) :
    Except String Unit :=
  if data.source = [] then .error "Missing mandatory source"
  else
    match parseURL data.source with
    | none => .error "Invalid source format, source must be a valid URL"
    | some u =>
      if ¬ (u.scheme = strOf "http" ∨ u.scheme = strOf "https") then
        .error "Invalid source format, only http(s) is supported"
      else if ¬ idCheck data.id then
        .error "Invalid id type of value"
      else if ¬ mimeCheck ftype data.mime then
        .error "Missing or invalid mandatory mime"
      else if ¬ permCheck data.permissions then
        .error "Invalid permissions"
      else rootCheck svc data.source data.root

/-- Node.js `path.basename` (posix, no extension argument): strip trailing
slashes, then take the last component. -/
def posixBasename (p : Str) : Str :=
  ((p.reverse.dropWhile (· = '/')).takeWhile (· ≠ '/')).reverse

/-- `(dirname + '/' + basename).replace(/\/\//g, '/')` of the `path` getter:
replace non-overlapping `//` pairs left to right. -/
def collapseDoubleSlash : Str → Str
  | [] => []
  | [c] => [c]
  | c₁ :: c₂ :: rest =>
    if c₁ = '/' ∧ c₂ = '/' then '/' :: collapseDoubleSlash rest
    else c₁ :: collapseDoubleSlash (c₂ :: rest)

/-- The pathname of a source URL (`new URL(this.source).pathname`); the
validator guarantees the parse succeeds, so the default is never reached on
a constructed Node. -/
def urlPathname (s : Str) : Str :=
  ((parseURL s).map URLParts.path).getD []

/-- The state of a constructed `Node` (`lib/files/node.ts`): its variant
(`File` or `Folder`), the owned `_data` record (whose `attributes` entry the
constructor deleted), the proxied `_attributes` bag, and the
`_knownDavService` pattern in force. -/
structure NodeSt where
  ftype : FileType
  data : NodeData
  attributes : List (String × JSVal)
  svc : List Str
deriving DecidableEq, Repr

/-- The `Node` constructor: validate the bag, take ownership of it, split
off the attributes bag, and remember a custom DAV service pattern if one was
supplied. -/
def mkNode (ftype : FileType) (data : NodeData) (davService : Option (List Str)) :
    Except String NodeSt :=
  let svc := davService.getD defaultDavTokens
  match validateNode ftype data svc with
  | .error e => .error e
  | .ok _ =>
    .ok { ftype := ftype, data := { data with attributes := [] },
          attributes := data.attributes, svc := svc }

/-- The `source` getter: the stored source with one trailing slash
stripped. -/
def nodeSource (st : NodeSt) : Str :=
  stripOneTrailingSlash st.data.source

/-- The `basename` getter. -/
def nodeBasename (st : NodeSt) : Str :=
  posixBasename (nodeSource st)

/-- Modelled from the spec: `isDavRessource` of `lib/files/nodeData.ts` —
true iff the source matches the known or custom DAV-service pattern (§3);
the `isDavRessource` getter applies it to `this.source`. -/
def nodeIsDavRessource (st : NodeSt) : Bool :=
  hasMatch st.svc (nodeSource st)

/-- The DAV-inference branch of the `root` getter:
`dirname(this.source).split(this._knownDavService).pop() || null` when the
node is a DAV resource, else `null`. -/
def nodeRootInfer (st : NodeSt) : Option Str :=
  if nodeIsDavRessource st then
    let dn := posixDirname (nodeSource st)
    jsPopOrNull dn (lastMatchTail st.svc dn)
  else none

/-- The `root` getter: the supplied root with the ending slash stripped when
one was supplied (and truthy), else the root inferred from the DAV service,
else `null`. -/
def nodeRoot (st : NodeSt) : Option Str :=
  match st.data.root with
  | some r => if r = [] then nodeRootInfer st else some (stripRootSlash r)
  | none => nodeRootInfer st

/-- The slice `this.source.slice(firstMatch + this.root.length)` shared by
the `dirname` and `path` getters, with the `|| '/'` fallback. -/
def nodeRelSlice (st : NodeSt) (r : Str) : Str :=
  let s := nodeSource st
  let t := jsSliceFrom s (jsIndexOf s r + (r.length : Int))
  if t = [] then ['/'] else t

/-- The `dirname` getter. -/
def nodeDirname (st : NodeSt) : Str :=
  match nodeRoot st with
  | some r =>
    if r = [] then posixDirname (urlPathname (nodeSource st))
    else posixDirname (nodeRelSlice st r)
  | none => posixDirname (urlPathname (nodeSource st))

/-- The `path` getter. -/
def nodePath (st : NodeSt) : Str :=
  match nodeRoot st with
  | some r =>
    if r = [] then
      collapseDoubleSlash (nodeDirname st ++ '/' :: nodeBasename st)
    else nodeRelSlice st r
  | none => collapseDoubleSlash (nodeDirname st ++ '/' :: nodeBasename st)

/-- The `owner` getter: remote (non-DAV) resources have no owner. -/
def nodeOwner (st : NodeSt) : Option Str :=
  if nodeIsDavRessource st then st.data.owner else none

/-- The `permissions` getter: READ-only for non-DAV resources without an
owner, else the stored permissions defaulting to NONE. -/
def nodePermissions (st : NodeSt) : Int :=
  if nodeOwner st = none ∧ ¬ nodeIsDavRessource st then Permission.READ
  else st.data.permissions.getD Permission.NONE

/-- The `fileid` getter: `this._data?.id || this.attributes?.fileid`. -/
def nodeFileid (st : NodeSt) : Option JSVal :=
  match st.data.id with
  | some v => if v.truthy then some v else List.lookup "fileid" st.attributes
  | none => List.lookup "fileid" st.attributes

/-- `updateMtime`: refresh the modification time to `now` only when an mtime
is already present. -/
def updateMtime (d : NodeData) (now : Nat) : NodeData :=
  if d.mtime.isSome then { d with mtime := some now } else d

/-- `move(destination)`: revalidate the data bag with the source replaced;
only when validation passes are the source assignment and the mtime refresh
executed, so a thrown validation leaves the state of the first component
untouched.  The result pairs the thrown/returned value with the state of the
node after the call. -/
def nodeMove (st : NodeSt) (destination : Str) (now : Nat) :
    Except String Unit × NodeSt :=
  match validateNode st.ftype { st.data with source := destination } st.svc with
  | .error e => (.error e, st)
  | .ok _ =>
    (.ok (), { st with data := updateMtime { st.data with source := destination } now })

/-- `rename(basename)`: reject basenames containing `/`, else move to the
current directory joined with the new basename. -/
def nodeRename (st : NodeSt) (basename : Str) (now : Nat) :
    Except String Unit × NodeSt :=
  if '/' ∈ basename then (.error "Invalid basename", st)
  else nodeMove st (posixDirname (nodeSource st) ++ '/' :: basename) now

/-- A registered `FileAction` (`lib/fileAction.ts`), as far as the registry
inspects it: the registry logic (`registerFileAction`) consults only `id`;
the callable fields (`displayName`, `iconSvgInline`, `exec`, …) are opaque
values the registry stores by reference and never reads. -/
structure FileAction where
  id : String
  order : Option Int := none
deriving DecidableEq, Repr

/-- `registerFileAction`: a duplicate id is silently rejected (logged, not
thrown) and the existing collection is preserved; otherwise the action is
appended. -/
def registerFileAction (actions : List FileAction) (action : FileAction) :
    List FileAction :=
  if (actions.find? fun search => search.id == action.id).isSome then actions
  else actions ++ [action]

/-- A template-menu `Entry`, modelled from the spec (§4.4):
`lib/newFileMenu.ts` is not among the given sources.  The `handler` callable
is represented by its presence. -/
structure Entry where
  id : String
  displayName : String
  templateName : Option String := none
  iconClass : Option String := none
  iconSvgInline : Option String := none
  hasHandler : Bool := true
deriving DecidableEq, Repr

/-- Modelled from the spec: entry validation of the template registry
(§4.4) — `id` and `displayName` non-empty, and at least one of
`templateName` or `handler` provided. -/
def validateEntry (e : Entry) : Except String Unit := do
  if e.id = "" ∨ e.displayName = "" then
    throw "Invalid id or displayName property"
  if e.templateName = none ∧ e.hasHandler = false then
    throw "At least a templateName or a handler must be provided"
  pure ()

/-- Modelled from the spec: `registerEntry` of the template registry (§4.4)
— validate the entry, then throw `Duplicate entry` when the id is already
present, else append. -/
def registerEntry (entries : List Entry) (entry : Entry) :
    Except String (List Entry) := do
  let _ ← validateEntry entry
  if (entries.find? fun e => e.id == entry.id).isSome then
    throw "Duplicate entry"
  pure (entries ++ [entry])

/-! ## Helper lemmas about the string model -/

theorem firstIdxOf_eq_some_iff {s pat : Str} {i : Nat} :
    firstIdxOf s pat = some i ↔
      (pat <+: s.drop i ∧ ∀ j < i, ¬ pat <+: s.drop j) := by
  induction s generalizing i with
  | nil =>
    by_cases hp : pat = ([] : Str)
    · subst hp
      simp only [firstIdxOf, if_pos rfl]
      constructor
      · rintro h
        cases h
        exact ⟨ List.nil_prefix, fun j hj => absurd hj (Nat.not_lt_zero j)⟩
      · rintro ⟨-, h⟩
        rcases Nat.eq_zero_or_pos i with hi | hi
        · simp [hi]
        · exact absurd List.nil_prefix (h 0 hi)
    · simp only [firstIdxOf, if_neg hp]
      constructor
      · rintro ⟨⟩
      · rintro ⟨h, -⟩
        rw [List.drop_nil] at h
        exact absurd (List.prefix_nil.mp h) hp
  | cons c rest ih =>
    by_cases hp : pat <+: (c :: rest)
    · simp only [firstIdxOf, if_pos hp]
      constructor
      · rintro h
        cases h
        exact ⟨hp, fun j hj => absurd hj (Nat.not_lt_zero j)⟩
      · rintro ⟨-, h⟩
        congr 1
        by_contra hne
        exact h 0 (by omega) hp
    · simp only [firstIdxOf, if_neg hp]
      cases i with
      | zero =>
        simp only [List.drop_zero]
        constructor
        · rintro h
          rcases Option.map_eq_some'.mp h with ⟨i', -, hi'⟩
          omega
        · rintro ⟨h, -⟩
          exact absurd h hp
      | succ i' =>
        constructor
        · intro h
          rcases Option.map_eq_some'.mp h with ⟨j, hj, hji⟩
          have hji' : j = i' := by omega
          subst hji'
          rcases ih.mp hj with ⟨h1, h2⟩
          refine ⟨by simpa using h1, ?_⟩
          intro j hjlt
          cases j with
          | zero => simpa using hp
          | succ j' =>
            intro hpre
            exact h2 j' (by omega) (by simpa using hpre)
        · rintro ⟨h1, h2⟩
          have hrest : firstIdxOf rest pat = some i' := by
            refine ih.mpr ⟨by simpa using h1, ?_⟩
            intro j hj hpre
            exact h2 (j + 1) (by omega) (by simpa using hpre)
          simp [hrest]

theorem firstIdxOf_eq_none {s pat : Str} (h : firstIdxOf s pat = none) :
    ∀ j, ¬ pat <+: s.drop j := by
  induction s with
  | nil =>
    intro j hpre
    rw [List.drop_nil] at hpre
    have : pat = ([] : Str) := List.prefix_nil.mp hpre
    subst this
    simp [firstIdxOf] at h
  | cons c rest ih =>
    intro j hpre
    by_cases hp : pat <+: (c :: rest)
    · simp [firstIdxOf, if_pos hp] at h
    · simp only [firstIdxOf, if_neg hp] at h
      have hrest : firstIdxOf rest pat = none := by
        cases hr : firstIdxOf rest pat with
        | none => rfl
        | some k => rw [hr] at h; simp at h
      cases j with
      | zero => exact hp (by simpa using hpre)
      | succ j' => exact ih hrest j' (by simpa using hpre)

theorem isInf_iff_exists_drop {pat s : Str} :
    pat <:+: s ↔ ∃ i, pat <+: s.drop i := by
  constructor
  · rintro ⟨A, B, hAB⟩
    refine ⟨A.length, ?_⟩
    have : s.drop A.length = pat ++ B := by
      rw [← hAB, List.append_assoc]
      exact List.drop_left' rfl
    rw [this]
    exact List.prefix_append pat B
  · rintro ⟨i, t, ht⟩
    exact ⟨s.take i, t, by rw [List.append_assoc, ht, List.take_append_drop]⟩

theorem firstIdxOf_isSome_of_isInf {pat s : Str} (h : pat <:+: s) :
    ∃ i, firstIdxOf s pat = some i := by
  cases hf : firstIdxOf s pat with
  | some i => exact ⟨i, rfl⟩
  | none =>
    rcases isInf_iff_exists_drop.mp h with ⟨i, hi⟩
    exact absurd hi (firstIdxOf_eq_none hf i)

/-! ## Inversion of the constructor -/

theorem mkNode_ok {ft : FileType} {d : NodeData} {svcOpt : Option (List Str)}
    {st : NodeSt} (h : mkNode ft d svcOpt = Except.ok st) :
    validateNode ft d (svcOpt.getD defaultDavTokens) = Except.ok () ∧
    st = { ftype := ft, data := { d with attributes := [] },
           attributes := d.attributes, svc := svcOpt.getD defaultDavTokens } := by
  simp only [mkNode] at h
  cases hv : validateNode ft d (svcOpt.getD defaultDavTokens) with
  | error e => rw [hv] at h; cases h
  | ok u =>
    cases u
    rw [hv] at h
    cases h
    exact ⟨rfl, rfl⟩

/-! ## Concrete inputs used by the witnesses and counterexamples -/

/-- A DAV file source from the repository's tests. -/
def bagDavFile : NodeData :=
  { source := strOf "https://cloud.domain.com/remote.php/dav/files/emma/Photos/picture.jpg",
    mime := some (strOf "image/jpeg"), owner := some (strOf "emma") }

/-- The same source with an explicit root. -/
def bagRootFile : NodeData :=
  { bagDavFile with root := some (strOf "/files/emma") }

/-- A non-DAV source with owner and full permissions supplied. -/
def bagNonDav : NodeData :=
  { source := strOf "https://domain.com/files/images/emma.jpeg",
    mime := some (strOf "image/jpeg"), owner := some (strOf "emma"),
    permissions := some Permission.ALL }

/-- A DAV folder source with a trailing slash. -/
def bagDavFolder : NodeData :=
  { source := strOf "https://cloud.domain.com/remote.php/dav/files/emma/Photos/",
    owner := some (strOf "emma") }

/-- The node state the constructor produces for a valid bag. -/
def stOfBag (ft : FileType) (d : NodeData) (svcOpt : Option (List Str)) : NodeSt :=
  { ftype := ft, data := { d with attributes := [] },
    attributes := d.attributes, svc := svcOpt.getD defaultDavTokens }

/-! ## C1: move atomicity -/

/-- C1: for every node state and destination, if `move(destination)` throws
(its revalidation of the data bag with the source replaced by the
destination fails), the node's state after the call is exactly the state
before the call — no partial update; if it does not throw, the stored
source becomes the destination. -/
theorem c1_move_atomicity (st : NodeSt) (destination : Str) (now : Nat) :
    (∀ e, (nodeMove st destination now).1 = Except.error e →
        (nodeMove st destination now).2 = st) ∧
    ((nodeMove st destination now).1 = Except.ok () →
        ((nodeMove st destination now).2).data.source = destination) := by
  unfold nodeMove
  cases hv : validateNode st.ftype { st.data with source := destination } st.svc with
  | error e =>
    refine ⟨fun e' _ => rfl, fun hok => ?_⟩
    simp at hok
  | ok u =>
    cases u
    refine ⟨fun e' he' => ?_, fun _ => ?_⟩
    · simp at he'
    · show ({ st with data := updateMtime { st.data with source := destination } now } :
          NodeSt).data.source = destination
      unfold updateMtime
      split <;> rfl

/-- Witness for C1: moving the test folder to a non-URL destination throws
and leaves the state untouched; moving it to a valid destination commits
the new source. -/
theorem c1_witness :
    (nodeMove (stOfBag FileType.folder bagDavFolder none)
        (strOf "cloud.domain.com/x") 7).2 = stOfBag FileType.folder bagDavFolder none ∧
    ((nodeMove (stOfBag FileType.folder bagDavFolder none)
        (strOf "https://cloud.domain.com/remote.php/dav/files/emma/Pics") 7).2).data.source
      = strOf "https://cloud.domain.com/remote.php/dav/files/emma/Pics" := by
  constructor
  · exact (c1_move_atomicity (stOfBag FileType.folder bagDavFolder none)
      (strOf "cloud.domain.com/x") 7).1
      "Invalid source format, source must be a valid URL" (by rfl)
  · exact (c1_move_atomicity (stOfBag FileType.folder bagDavFolder none)
      (strOf "https://cloud.domain.com/remote.php/dav/files/emma/Pics") 7).2 (by rfl)

/-! ## C7: rename -/

/-- C7: for every node state, `rename(newBasename)` with a basename
containing `/` throws `Invalid basename` and leaves the state (hence the
source) unchanged; with a basename not containing `/` it delegates to
`move` with the current directory joined with the new basename. -/
theorem c7_rename_delegation (st : NodeSt) (b : Str) (now : Nat) :
    ('/' ∈ b → nodeRename st b now = (Except.error "Invalid basename", st)) ∧
    ('/' ∉ b → nodeRename st b now =
        nodeMove st (posixDirname (nodeSource st) ++ '/' :: b) now) := by
  unfold nodeRename
  exact ⟨fun h => if_pos h, fun h => if_neg h⟩

/-- Witness for C7: renaming the test folder to `new/folder` throws
`Invalid basename` with the state untouched (the repository's
`Invalid rename` test), and renaming it to `pics` is the corresponding
move. -/
theorem c7_witness :
    nodeRename (stOfBag FileType.folder bagDavFolder none) (strOf "new/folder") 3
      = (Except.error "Invalid basename", stOfBag FileType.folder bagDavFolder none) ∧
    nodeRename (stOfBag FileType.folder bagDavFolder none) (strOf "pics") 3
      = nodeMove (stOfBag FileType.folder bagDavFolder none)
          (posixDirname (nodeSource (stOfBag FileType.folder bagDavFolder none))
            ++ '/' :: strOf "pics") 3 := by
  constructor
  · exact (c7_rename_delegation (stOfBag FileType.folder bagDavFolder none)
      (strOf "new/folder") 3).1 (by decide)
  · exact (c7_rename_delegation (stOfBag FileType.folder bagDavFolder none)
      (strOf "pics") 3).2 (by decide)

/-! ## C8: owner and permissions -/

/-- C8: for every constructed node — when the owner getter is null and the
node is not a DAV resource, the permissions getter returns exactly READ
whatever permissions were supplied; otherwise it returns the supplied
permissions, defaulting to NONE.  The owner getter returns null for every
non-DAV resource whatever owner was supplied, and the supplied owner on a
DAV resource. -/
theorem c8_owner_permissions (ft : FileType) (d : NodeData)
    (svcOpt : Option (List Str)) (st : NodeSt)
    (h : mkNode ft d svcOpt = Except.ok st) :
    (nodeOwner st = none ∧ ¬ nodeIsDavRessource st →
        nodePermissions st = Permission.READ) ∧
    (¬ (nodeOwner st = none ∧ ¬ nodeIsDavRessource st) →
        nodePermissions st = d.permissions.getD Permission.NONE) ∧
    (¬ nodeIsDavRessource st → nodeOwner st = none) ∧
    (nodeIsDavRessource st → nodeOwner st = d.owner) := by
  obtain ⟨-, hst⟩ := mkNode_ok h
  refine ⟨?_, ?_, ?_, ?_⟩
  · intro hcond
    unfold nodePermissions
    rw [if_pos hcond]
  · intro hcond
    unfold nodePermissions
    rw [if_neg hcond]
    subst hst
    rfl
  · intro hdav
    unfold nodeOwner
    rw [if_neg hdav]
  · intro hdav
    unfold nodeOwner
    rw [if_pos hdav]
    subst hst
    rfl

/-- Witness for C8: the non-DAV test file with full permissions supplied is
read-only with a null owner; the DAV test file keeps its supplied owner and
defaults to NONE permissions. -/
theorem c8_witness :
    nodePermissions (stOfBag FileType.file bagNonDav none) = Permission.READ ∧
    nodeOwner (stOfBag FileType.file bagNonDav none) = none ∧
    nodeOwner (stOfBag FileType.file bagDavFile none) = some (strOf "emma") ∧
    nodePermissions (stOfBag FileType.file bagDavFile none) = Permission.NONE := by
  have h7 := c8_owner_permissions FileType.file bagNonDav none
    (stOfBag FileType.file bagNonDav none) (by rfl)
  have h1 := c8_owner_permissions FileType.file bagDavFile none
    (stOfBag FileType.file bagDavFile none) (by rfl)
  refine ⟨?_, ?_, ?_, ?_⟩
  · exact h7.1 ⟨h7.2.2.1 (by decide), by decide⟩
  · exact h7.2.2.1 (by decide)
  · exact h1.2.2.2 (by decide)
  · exact h1.2.1 (by decide)

/-! ## C9: duplicate-registration policies -/

/-- C9: registering a `FileAction` whose id is already registered leaves
the action registry unchanged (the first registration is kept; nothing is
thrown — the function is total), while registering a template-menu `Entry`
whose id is already registered throws `Duplicate entry` and leaves exactly
the previously registered entries (the rejected registration returns no new
collection). -/
theorem c9_registration_policies :
    (∀ (acts : List FileAction) (a b : FileAction), a.id = b.id →
        registerFileAction (registerFileAction acts a) b
          = registerFileAction acts a) ∧
    (∀ (es es' : List Entry) (e : Entry),
        registerEntry es e = Except.ok es' →
        registerEntry es' e = Except.error "Duplicate entry") := by
  constructor
  · intro acts a b hid
    unfold registerFileAction
    by_cases hdup : (acts.find? fun search => search.id == a.id).isSome
    · rw [if_pos hdup, if_pos (by simpa [hid] using hdup)]
    · rw [if_neg hdup]
      have : ((acts ++ [a]).find? fun search => search.id == b.id).isSome := by
        rw [List.find?_isSome]
        exact ⟨a, by simp [hid]⟩
      rw [if_pos this]
  · intro es es' e h
    unfold registerEntry at h ⊢
    cases hval : validateEntry e with
    | error msg => rw [hval] at h; simp [Bind.bind, Except.bind] at h
    | ok u =>
      cases u
      rw [hval] at h
      simp only [Bind.bind, Except.bind] at h ⊢
      by_cases hdup : (es.find? fun x => x.id == e.id).isSome
      · rw [if_pos hdup] at h
        cases h
      · rw [if_neg hdup] at h
        have hes' : es' = es ++ [e] := by
          cases h
          rfl
        subst hes'
        have : ((es ++ [e]).find? fun x => x.id == e.id).isSome := by
          rw [List.find?_isSome]
          exact ⟨e, by simp⟩
        rw [if_pos this]

/-- Witness for C9: registering the same action twice on the empty registry
keeps exactly the first registration, and registering the same entry twice
throws `Duplicate entry` on the second registration. -/
theorem c9_witness :
    registerFileAction (registerFileAction [] { id := "details" }) { id := "details" }
      = registerFileAction [] { id := "details" } ∧
    registerEntry (([] : List Entry) ++
        [{ id := "empty-file", displayName := "Create empty file",
           templateName := some "New file.txt" }])
        { id := "empty-file", displayName := "Create empty file",
          templateName := some "New file.txt" }
      = Except.error "Duplicate entry" := by
  constructor
  · exact c9_registration_policies.1 [] { id := "details" } { id := "details" } rfl
  · exact c9_registration_policies.2 []
      ([] ++ [{ id := "empty-file", displayName := "Create empty file",
                templateName := some "New file.txt" }])
      { id := "empty-file", displayName := "Create empty file",
        templateName := some "New file.txt" } (by rfl)

/-! ## C6: id validation -/

/-- The DAV file bag with a negative numeric id (the repository's
`FileId negative fallback` test input). -/
def bagNegId : NodeData := { bagDavFile with id := some (JSVal.num (-1234)) }

/-- Counterexample to C6 as stated: the data bag with id `-1234` — an
integer that is not ≥ 0 — validates successfully (construction does not
throw), and the constructed node reports fileid `-1234`, exactly as the
repository's `FileId negative fallback` test expects. -/
theorem c6_counterexample :
    bagNegId.id = some (JSVal.num (-1234)) ∧
    validateNode FileType.file bagNegId defaultDavTokens = Except.ok () ∧
    (mkNode FileType.file bagNegId none).map nodeFileid
      = Except.ok (some (JSVal.num (-1234))) :=
  ⟨rfl, rfl, rfl⟩

/-- C6 (amended): for every data bag passing the source checks whose id
field is present but not numeric, validation throws exactly
`Invalid id type of value`; numeric ids — including negative integers —
are accepted. -/
theorem c6_id_validation (ft : FileType) (d : NodeData) (svc : List Str)
    (v : JSVal) (hsrc : d.source ≠ [])
    (hparse : ∃ u, parseURL d.source = some u ∧
        (u.scheme = strOf "http" ∨ u.scheme = strOf "https"))
    (hid : d.id = some v) (hv : v.isNum = false) :
    validateNode ft d svc = Except.error "Invalid id type of value" := by
  obtain ⟨u, hu, hscheme⟩ := hparse
  unfold validateNode
  rw [if_neg hsrc, hu]
  show (if ¬ (u.scheme = strOf "http" ∨ u.scheme = strOf "https") then _
    else _) = _
  rw [if_neg (not_not_intro hscheme)]
  rw [if_pos (show ¬ (idCheck d.id = true) by rw [hid]; simp [idCheck, hv])]

/-- The DAV file bag with a string id (the repository's `Invalid id`
test input). -/
def bagStrId : NodeData := { bagDavFile with id := some (JSVal.str (strOf "1234")) }

/-- Witness for the amended C6: the test bag carrying the string id
`'1234'` is rejected with `Invalid id type of value`. -/
theorem c6_witness :
    validateNode FileType.file bagStrId defaultDavTokens
      = Except.error "Invalid id type of value" :=
  c6_id_validation FileType.file bagStrId defaultDavTokens
    (JSVal.str (strOf "1234")) (by decide)
    ⟨⟨strOf "https", strOf "cloud.domain.com",
      strOf "/remote.php/dav/files/emma/Photos/picture.jpg"⟩, by rfl, Or.inr rfl⟩
    rfl rfl

/-! ## C5: fileid fallback -/

/-- The DAV file bag with id `0` and a `fileid` attribute. -/
def bagIdZero : NodeData :=
  { bagDavFile with
    id := some (JSVal.num 0),
    attributes := [("fileid", JSVal.num 1234)] }

/-- Counterexample to C5 as stated: a valid bag supplies the id `0`, yet
the fileid getter returns the attributes' fileid `1234` instead of the
supplied `0` — JavaScript `||` treats the supplied `0` as absent. -/
theorem c5_counterexample :
    bagIdZero.id = some (JSVal.num 0) ∧
    (mkNode FileType.file bagIdZero none).map nodeFileid
      = Except.ok (some (JSVal.num 1234)) :=
  ⟨rfl, rfl⟩

/-- C5 (amended): for every constructed node, the fileid getter returns the
supplied id whenever the supplied id is a non-zero number; when the id is
`0` or absent it returns the value of `attributes.fileid` when present,
else undefined (`none`). -/
theorem c5_fileid (ft : FileType) (d : NodeData) (svcOpt : Option (List Str))
    (st : NodeSt) (h : mkNode ft d svcOpt = Except.ok st) :
    (∀ n : Int, d.id = some (JSVal.num n) → n ≠ 0 →
        nodeFileid st = some (JSVal.num n)) ∧
    (d.id = some (JSVal.num 0) →
        nodeFileid st = List.lookup "fileid" d.attributes) ∧
    (d.id = none → nodeFileid st = List.lookup "fileid" d.attributes) := by
  obtain ⟨-, hst⟩ := mkNode_ok h
  subst hst
  refine ⟨?_, ?_, ?_⟩
  · intro n hn hne
    simp [nodeFileid, hn, JSVal.truthy, hne]
  · intro hn
    simp [nodeFileid, hn, JSVal.truthy]
  · intro hn
    simp [nodeFileid, hn]

/-- Witness for the amended C5: on the negative-id bag the getter returns
the id; on the zero-id bag it falls back to the attribute; on the plain bag
(no id, no attribute) it returns undefined. -/
theorem c5_witness :
    nodeFileid (stOfBag FileType.file bagNegId none) = some (JSVal.num (-1234)) ∧
    nodeFileid (stOfBag FileType.file bagIdZero none) = some (JSVal.num 1234) ∧
    nodeFileid (stOfBag FileType.file bagDavFile none) = none := by
  have hneg := c5_fileid FileType.file bagNegId none
    (stOfBag FileType.file bagNegId none) (by rfl)
  have hzero := c5_fileid FileType.file bagIdZero none
    (stOfBag FileType.file bagIdZero none) (by rfl)
  have hnone := c5_fileid FileType.file bagDavFile none
    (stOfBag FileType.file bagDavFile none) (by rfl)
  exact ⟨hneg.1 (-1234) rfl (by decide), hzero.2.1 rfl, hnone.2.2 rfl⟩

/-! ## C3: trailing slashes of the source getter -/

/-- The DAV folder bag whose source ends with two slashes. -/
def bagTrailing : NodeData :=
  { source := strOf "https://cloud.domain.com/remote.php/dav/files/emma//",
    owner := some (strOf "emma") }

/-- Counterexample to C3 as stated: the bag with source ending in `//` is
valid, yet the source getter — which strips exactly one trailing slash —
returns a string that still ends with `/`. -/
theorem c3_counterexample :
    (mkNode FileType.folder bagTrailing none).map
        (fun st => (nodeSource st).getLast?)
      = Except.ok (some '/') := by rfl

theorem stripOne_getLast {s : Str} (h : ¬ (strOf "//" <:+ s)) :
    (stripOneTrailingSlash s).getLast? ≠ some '/' := by
  unfold stripOneTrailingSlash
  by_cases hl : s.getLast? = some '/'
  · rw [if_pos hl]
    intro hd
    apply h
    have h1 : s.dropLast ++ ['/'] = s :=
      List.dropLast_append_getLast? '/' (Option.mem_def.mpr hl)
    have h2 : s.dropLast.dropLast ++ ['/'] = s.dropLast :=
      List.dropLast_append_getLast? '/' (Option.mem_def.mpr hd)
    refine ⟨s.dropLast.dropLast, ?_⟩
    rw [(by rfl : strOf "//" = ['/', '/'])]
    rw [← h1, ← h2]
    simp
  · rw [if_neg hl]
    exact hl

/-- C3 (amended): for every valid data bag whose supplied source does not
end with two consecutive slashes, the source getter of the constructed node
never ends with `/` (exactly one trailing slash is stripped). -/
theorem c3_source_no_trailing_slash (ft : FileType) (d : NodeData)
    (svcOpt : Option (List Str)) (st : NodeSt)
    (h : mkNode ft d svcOpt = Except.ok st)
    (hss : ¬ (strOf "//" <:+ d.source)) :
    (nodeSource st).getLast? ≠ some '/' := by
  obtain ⟨-, hst⟩ := mkNode_ok h
  subst hst
  exact stripOne_getLast hss

/-- Witness for the amended C3: the test folder source ends with a single
slash and the getter result carries no trailing slash. -/
theorem c3_witness :
    (nodeSource (stOfBag FileType.folder bagDavFolder none)).getLast? ≠ some '/' :=
  c3_source_no_trailing_slash FileType.folder bagDavFolder none
    (stOfBag FileType.folder bagDavFolder none) (by rfl) (by decide)

/-! ## Inversion of the validator, and root/source survival lemmas -/

theorem infOfPre {l₁ l₂ : Str} (h : l₁ <+: l₂) : l₁ <:+: l₂ := by
  obtain ⟨t, ht⟩ := h
  exact ⟨[], t, by simpa using ht⟩

theorem infOfSuf {l₁ l₂ : Str} (h : l₁ <:+ l₂) : l₁ <:+: l₂ := by
  obtain ⟨t, ht⟩ := h
  exact ⟨t, [], by simpa using ht⟩

theorem infTrans {l₁ l₂ l₃ : Str} (h₁ : l₁ <:+: l₂) (h₂ : l₂ <:+: l₃) :
    l₁ <:+: l₃ :=
  List.IsInfix.trans h₁ h₂

theorem validateNode_ok_rootCheck {ft : FileType} {d : NodeData}
    {svc : List Str} (h : validateNode ft d svc = Except.ok ()) :
    rootCheck svc d.source d.root = Except.ok () := by
  unfold validateNode at h
  split at h
  · exact absurd h (by simp)
  · split at h
    · exact absurd h (by simp)
    · split at h
      · exact absurd h (by simp)
      · split at h
        · exact absurd h (by simp)
        · split at h
          · exact absurd h (by simp)
          · split at h
            · exact absurd h (by simp)
            · exact h

theorem validateNode_ok_parse {ft : FileType} {d : NodeData} {svc : List Str}
    (h : validateNode ft d svc = Except.ok ()) :
    ∃ u, parseURL d.source = some u := by
  unfold validateNode at h
  split at h
  · exact absurd h (by simp)
  · split at h
    · exact absurd h (by simp)
    · exact ⟨_, by assumption⟩

theorem rootCheck_ok_facts {svc : List Str} {source r : Str}
    (h : rootCheck svc source (some r) = Except.ok ()) (hrne : r ≠ []) :
    r.head? = some '/' ∧ r <:+: source := by
  simp only [rootCheck] at h
  rw [if_neg hrne] at h
  split at h
  · exact absurd h (by simp)
  · split at h
    · exact absurd h (by simp)
    · rename_i hhead hinf
      exact ⟨not_not.mp (by simpa using hhead), not_not.mp hinf⟩

theorem parseURL_dslash {s : Str} {u : URLParts} (h : parseURL s = some u) :
    ['/', '/'] <:+: s := by
  unfold parseURL at h
  cases hf : firstIdxOf s (strOf "://") with
  | none => rw [hf] at h; exact absurd h (by simp)
  | some i =>
    have hpre : strOf "://" <+: s.drop i := (firstIdxOf_eq_some_iff.mp hf).1
    obtain ⟨t, ht⟩ := hpre
    refine isInf_iff_exists_drop.mpr ⟨i + 1, ?_⟩
    have hdd : s.drop (i + 1) = '/' :: '/' :: t := by
      have h1 : (s.drop i).drop 1 = s.drop (i + 1) := List.drop_drop 1 i s
      rw [← h1, ← ht]
      rfl
    rw [hdd]
    exact ⟨t, rfl⟩

theorem stripRootSlash_pref (r : Str) : stripRootSlash r <+: r := by
  unfold stripRootSlash
  split
  · exact List.dropLast_prefix r
  · exact List.prefix_refl r

theorem stripRootSlash_ne_nil {r : Str} (hrne : r ≠ []) :
    stripRootSlash r ≠ [] := by
  unfold stripRootSlash
  split
  · rename_i hcond
    intro hnil
    have hlen := congrArg List.length hnil
    simp at hlen
    omega
  · exact hrne

theorem dslash_dropLast {s : Str} (h : ['/', '/'] <:+: s) :
    ['/'] <:+: s.dropLast := by
  obtain ⟨C, D, hCD⟩ := h
  cases D with
  | nil =>
    rw [List.append_nil] at hCD
    have hdl : s.dropLast = C ++ ['/'] := by
      rw [← hCD]
      rw [List.dropLast_append_of_ne_nil C (by simp)]
      rfl
    exact ⟨C, [], by simp [hdl]⟩
  | cons b bs =>
    have hdl : s.dropLast = C ++ ['/', '/'] ++ (b :: bs).dropLast := by
      rw [← hCD]
      exact List.dropLast_append_of_ne_nil (C ++ ['/', '/']) (by simp)
    exact ⟨C, '/' :: (b :: bs).dropLast, by rw [hdl]; simp⟩

theorem strip_root_survives {r s : Str} (hr : r <:+: s)
    (hsl : ['/', '/'] <:+: s) (hhead : r.head? = some '/') (hrne : r ≠ []) :
    stripRootSlash r <:+: stripOneTrailingSlash s := by
  unfold stripOneTrailingSlash
  by_cases hl : s.getLast? = some '/'
  · rw [if_pos hl]
    obtain ⟨A, B, hAB⟩ := hr
    cases B with
    | cons b bs =>
      have hdl : s.dropLast = A ++ r ++ (b :: bs).dropLast := by
        rw [← hAB]
        exact List.dropLast_append_of_ne_nil (A ++ r) (by simp)
      exact infTrans (infOfPre (stripRootSlash_pref r))
        ⟨A, (b :: bs).dropLast, hdl.symm⟩
    | nil =>
      rw [List.append_nil] at hAB
      by_cases hrl : r.getLast? = some '/'
      · by_cases hlen : 2 ≤ r.length
        · have hsr : stripRootSlash r = r.dropLast := by
            unfold stripRootSlash
            rw [if_pos ⟨hlen, hrl⟩]
          have hdl : s.dropLast = A ++ r.dropLast := by
            rw [← hAB]
            exact List.dropLast_append_of_ne_nil A hrne
          rw [hsr]
          exact infOfSuf ⟨A, hdl.symm⟩
        · have hr1 : r = ['/'] := by
            cases r with
            | nil => exact absurd rfl hrne
            | cons c cs =>
              cases cs with
              | nil =>
                simp only [List.head?] at hhead
                cases hhead
                rfl
              | cons d ds => simp at hlen
          have hsr : stripRootSlash r = ['/'] := by rw [hr1]; rfl
          rw [hsr]
          exact dslash_dropLast hsl
      · have hgl : s.getLast? = r.getLast? := by
          rw [← hAB]
          exact List.getLast?_append_of_ne_nil A hrne
        rw [hl] at hgl
        exact absurd hgl.symm hrl
  · rw [if_neg hl]
    exact infTrans (infOfPre (stripRootSlash_pref r)) hr

/-! ## C4: path reconstruction from a supplied root -/

/-- A valid bag whose root's first occurrence in the source string lies
before the URL's path component (the host is `files.com` and the root is
`/files.com`, so `indexOf` finds the `/` of `://` followed by the host). -/
def bagHostRoot : NodeData :=
  { source := strOf "https://files.com/files.com/x",
    owner := some (strOf "emma"), root := some (strOf "/files.com") }

/-- Counterexample to C4 as stated: for the valid bag `bagHostRoot` —
root supplied — concatenating the root getter's value with the path
getter's value is NOT a suffix of the source URL's path: the path getter
slices at the first occurrence of the root in the source string, which here
lies inside `https://files.com`, before the URL's path component. -/
theorem c4_counterexample :
    (mkNode FileType.folder bagHostRoot none).map
        (fun st => (((nodeRoot st).getD [] ++ nodePath st).isSuffixOf
          (urlPathname (nodeSource st)), (nodePath st = ['/'] : Bool)))
      = Except.ok (false, false) := by rfl

/-- C4 (amended): for every constructed node whose root was supplied, the
dirname getter equals the parent directory of the path getter's value, and
either the path is `'/'` (the source ends at the root — then dirname is
`'/'` too), or concatenating the root getter's value with the path getter's
value reconstructs a suffix of the source string (the suffix starting at
the first occurrence of the root; a suffix of the URL's path whenever that
occurrence lies within the path component). -/
theorem c4_path_reconstruction (ft : FileType) (d : NodeData)
    (svcOpt : Option (List Str)) (st : NodeSt) (r : Str)
    (h : mkNode ft d svcOpt = Except.ok st)
    (hr : d.root = some r) (hrne : r ≠ []) :
    nodeDirname st = posixDirname (nodePath st) ∧
    ((nodePath st = ['/'] ∧ nodeDirname st = ['/']) ∨
      ((nodeRoot st).getD [] ++ nodePath st) <:+ nodeSource st) := by
  obtain ⟨hv, hst⟩ := mkNode_ok h
  have hrne' : stripRootSlash r ≠ [] := stripRootSlash_ne_nil hrne
  have hroot : nodeRoot st = some (stripRootSlash r) := by
    rw [hst]
    show nodeRoot (stOfBag ft d svcOpt) = _
    unfold nodeRoot stOfBag
    show (match d.root with
      | some r => if r = [] then nodeRootInfer (stOfBag ft d svcOpt)
          else some (stripRootSlash r)
      | none => nodeRootInfer (stOfBag ft d svcOpt)) = _
    rw [hr]
    show (if r = [] then _ else _) = _
    rw [if_neg hrne]
  have hrc := validateNode_ok_rootCheck (h := hv)
  rw [hr] at hrc
  obtain ⟨hhead, hinf⟩ := rootCheck_ok_facts hrc hrne
  obtain ⟨u, hu⟩ := validateNode_ok_parse (h := hv)
  have hsl : ['/', '/'] <:+: d.source := parseURL_dslash hu
  have hsurv0 : stripRootSlash r <:+: stripOneTrailingSlash d.source :=
    strip_root_survives hinf hsl hhead hrne
  have hsrc : nodeSource st = stripOneTrailingSlash d.source := by
    rw [hst]; rfl
  have hsurv : stripRootSlash r <:+: nodeSource st := by rw [hsrc]; exact hsurv0
  obtain ⟨i, hi⟩ := firstIdxOf_isSome_of_isInf hsurv
  have hipre : stripRootSlash r <+: (nodeSource st).drop i :=
    (firstIdxOf_eq_some_iff.mp hi).1
  have hslice : nodeRelSlice st (stripRootSlash r) =
      (if (nodeSource st).drop (i + (stripRootSlash r).length) = [] then ['/']
       else (nodeSource st).drop (i + (stripRootSlash r).length)) := by
    unfold nodeRelSlice
    simp only [jsIndexOf, jsSliceFrom, hi]
    have hnn : (0 : Int) ≤ (i : Int) + ((stripRootSlash r).length : Int) := by
      omega
    rw [if_pos hnn]
    have htn : ((i : Int) + ((stripRootSlash r).length : Int)).toNat
        = i + (stripRootSlash r).length := by omega
    rw [htn]
  have hpath : nodePath st = nodeRelSlice st (stripRootSlash r) := by
    unfold nodePath
    rw [hroot]
    show (if stripRootSlash r = [] then _ else _) = _
    rw [if_neg hrne']
  have hdirn : nodeDirname st = posixDirname (nodeRelSlice st (stripRootSlash r)) := by
    unfold nodeDirname
    rw [hroot]
    show (if stripRootSlash r = [] then _ else _) = _
    rw [if_neg hrne']
  refine ⟨by rw [hdirn, hpath], ?_⟩
  by_cases hnil : (nodeSource st).drop (i + (stripRootSlash r).length) = []
  · left
    constructor
    · rw [hpath, hslice, if_pos hnil]
    · rw [hdirn, hslice, if_pos hnil]
      rfl
  · right
    rw [hroot, hpath, hslice, if_neg hnil]
    show stripRootSlash r ++ (nodeSource st).drop (i + (stripRootSlash r).length)
      <:+ nodeSource st
    obtain ⟨w, hw⟩ := hipre
    have hwdrop : (nodeSource st).drop (i + (stripRootSlash r).length) = w := by
      have h1 : ((nodeSource st).drop i).drop (stripRootSlash r).length = w := by
        rw [← hw]
        exact List.drop_left' rfl
      rw [List.drop_drop] at h1
      exact h1
    rw [hwdrop, hw]
    exact List.drop_suffix i (nodeSource st)

/-- Witness for the amended C4: on the test file with supplied root
`/files/emma`, dirname `/Photos` is the parent of path
`/Photos/picture.jpg`, and root ++ path is a suffix of the source. -/
theorem c4_witness :
    nodeDirname (stOfBag FileType.file bagRootFile none)
      = posixDirname (nodePath (stOfBag FileType.file bagRootFile none)) ∧
    ((nodePath (stOfBag FileType.file bagRootFile none) = ['/'] ∧
      nodeDirname (stOfBag FileType.file bagRootFile none) = ['/']) ∨
      ((nodeRoot (stOfBag FileType.file bagRootFile none)).getD []
          ++ nodePath (stOfBag FileType.file bagRootFile none))
        <:+ nodeSource (stOfBag FileType.file bagRootFile none)) :=
  c4_path_reconstruction FileType.file bagRootFile none
    (stOfBag FileType.file bagRootFile none) (strOf "/files/emma")
    (by rfl) rfl (by decide)

/-! ## C10: slicing at the first occurrence of the root -/

theorem nodeRelSlice_at {st : NodeSt} {r' : Str} {i : Nat}
    (hi : firstIdxOf (nodeSource st) r' = some i) :
    nodeRelSlice st r' =
      (if (nodeSource st).drop (i + r'.length) = [] then ['/']
       else (nodeSource st).drop (i + r'.length)) := by
  unfold nodeRelSlice
  simp only [jsIndexOf, jsSliceFrom, hi]
  have hnn : (0 : Int) ≤ (i : Int) + (r'.length : Int) := by omega
  rw [if_pos hnn]
  have htn : ((i : Int) + (r'.length : Int)).toNat = i + r'.length := by omega
  rw [htn]

theorem nodeRoot_of_supplied {ft : FileType} {d : NodeData}
    {svcOpt : Option (List Str)} {st : NodeSt} {r : Str}
    (h : mkNode ft d svcOpt = Except.ok st)
    (hr : d.root = some r) (hrne : r ≠ []) :
    nodeRoot st = some (stripRootSlash r) := by
  obtain ⟨-, hst⟩ := mkNode_ok h
  rw [hst]
  show nodeRoot (stOfBag ft d svcOpt) = _
  unfold nodeRoot stOfBag
  show (match d.root with
    | some r => if r = [] then nodeRootInfer (stOfBag ft d svcOpt)
        else some (stripRootSlash r)
    | none => nodeRootInfer (stOfBag ft d svcOpt)) = _
  rw [hr]
  show (if r = [] then _ else _) = _
  rw [if_neg hrne]

/-- C10: for every constructed node whose root was supplied and whose
(trailing-slash-stripped) root occurs more than once as a substring of the
source, both the path getter and the dirname getter slice the source
immediately after the FIRST occurrence of the root, ignoring every later
occurrence: path is the slice after position `i + |root|` for the least
occurrence position `i` (or `/` when that slice is empty), and dirname is
its parent directory. -/
theorem c10_first_occurrence (ft : FileType) (d : NodeData)
    (svcOpt : Option (List Str)) (st : NodeSt) (r : Str) (i k : Nat)
    (h : mkNode ft d svcOpt = Except.ok st)
    (hr : d.root = some r) (hrne : r ≠ [])
    (hocc : stripRootSlash r <+: (nodeSource st).drop i)
    (hfirst : ∀ j < i, ¬ stripRootSlash r <+: (nodeSource st).drop j)
    (_hik : i < k)
    (_hocc2 : stripRootSlash r <+: (nodeSource st).drop k) :
    nodePath st =
      (if (nodeSource st).drop (i + (stripRootSlash r).length) = [] then ['/']
       else (nodeSource st).drop (i + (stripRootSlash r).length)) ∧
    nodeDirname st = posixDirname
      (if (nodeSource st).drop (i + (stripRootSlash r).length) = [] then ['/']
       else (nodeSource st).drop (i + (stripRootSlash r).length)) := by
  have hrne' : stripRootSlash r ≠ [] := stripRootSlash_ne_nil hrne
  have hroot : nodeRoot st = some (stripRootSlash r) :=
    nodeRoot_of_supplied h hr hrne
  have hi : firstIdxOf (nodeSource st) (stripRootSlash r) = some i :=
    firstIdxOf_eq_some_iff.mpr ⟨hocc, hfirst⟩
  have hslice := nodeRelSlice_at hi
  constructor
  · unfold nodePath
    rw [hroot]
    show (if stripRootSlash r = [] then _ else _) = _
    rw [if_neg hrne']
    exact hslice
  · unfold nodeDirname
    rw [hroot]
    show (if stripRootSlash r = [] then _ else _) = _
    rw [if_neg hrne']
    rw [hslice]

/-- The `Source contains a similar root path` test input: the root
`/files/emma` occurs twice in the source. -/
def bagDoubleRoot : NodeData :=
  { source := strOf "https://domain.com/remote.php/dav/files/emma/files/emma",
    owner := some (strOf "emma"), root := some (strOf "/files/emma") }

/-- Witness for C10: on the double-occurrence test input the getters slice
after the first occurrence (position 33), yielding path `/files/emma` and
dirname `/files`, exactly as the repository's test expects. -/
theorem c10_witness :
    nodePath (stOfBag FileType.folder bagDoubleRoot none) = strOf "/files/emma" ∧
    nodeDirname (stOfBag FileType.folder bagDoubleRoot none) = strOf "/files" := by
  have h := c10_first_occurrence FileType.folder bagDoubleRoot none
    (stOfBag FileType.folder bagDoubleRoot none) (strOf "/files/emma") 33 44
    (by rfl) rfl (by decide) (by decide) (by decide) (by decide) (by decide)
  refine ⟨?_, ?_⟩
  · rw [h.1]; decide
  · rw [h.2]; decide

/-! ## Scan lemmas for the split underlying the root inference -/

theorem matchLen_pos {svc : List Str} {s : Str} {L : Nat}
    (h : matchLen svc s = some L) : 1 ≤ L := by
  unfold matchLen at h
  obtain ⟨t, -, ht⟩ := List.exists_of_findSome?_eq_some h
  by_cases hc : t ≠ [] ∧ lowerStr (s.take t.length) = lowerStr t
  · rw [if_pos hc] at ht
    cases ht
    have : t ≠ [] := hc.1
    cases t with
    | nil => exact absurd rfl this
    | cons a l => simp
  · rw [if_neg hc] at ht
    cases ht

theorem matchLen_nil {svc : List Str} : matchLen svc [] = none := by
  unfold matchLen
  rw [List.findSome?_eq_none_iff]
  intro t _
  by_cases hc : t ≠ [] ∧ lowerStr (([] : Str).take t.length) = lowerStr t
  · obtain ⟨h1, h2⟩ := hc
    rw [List.take_nil] at h2
    have : t = [] := by
      have := congrArg List.length h2
      simp [lowerStr] at this
      exact List.length_eq_zero.mp this.symm
    exact absurd this h1
  · rw [if_neg hc]

theorem scan_none {svc : List Str} :
    ∀ (fuel : Nat) (s : Str), (∀ j, matchLen svc (s.drop j) = none) →
    lastMatchTailGo svc fuel s = none := by
  intro fuel
  induction fuel with
  | zero => intro s _; rfl
  | succ f ih =>
    intro s h
    cases s with
    | nil => rfl
    | cons c rest =>
      have h0 : matchLen svc (c :: rest) = none := by
        have := h 0
        rwa [List.drop_zero] at this
      simp only [lastMatchTailGo, h0]
      exact ih rest (fun j => h (j + 1))

theorem scan_last {svc : List Str} :
    ∀ (fuel : Nat) (s : Str) (i L : Nat), s.length ≤ fuel →
    matchLen svc (s.drop i) = some L →
    (∀ j, i < j → matchLen svc (s.drop j) = none) →
    (∀ p, p < i → p + (matchLen svc (s.drop p)).getD 0 ≤ i) →
    lastMatchTailGo svc fuel s = some (s.drop (i + L)) := by
  intro fuel
  induction fuel with
  | zero =>
    intro s i L hlen hm _ _
    have hs : s = [] := List.length_eq_zero.mp (Nat.le_zero.mp hlen)
    subst hs
    rw [List.drop_nil, matchLen_nil] at hm
    cases hm
  | succ f ih =>
    intro s i L hlen hm hafter hbefore
    cases s with
    | nil =>
      rw [List.drop_nil, matchLen_nil] at hm
      cases hm
    | cons c rest =>
      cases hm0 : matchLen svc (c :: rest) with
      | none =>
        have hi0 : i ≠ 0 := by
          intro h0
          subst h0
          rw [List.drop_zero, hm0] at hm
          cases hm
        obtain ⟨i', rfl⟩ : ∃ i', i = i' + 1 := ⟨i - 1, by omega⟩
        simp only [lastMatchTailGo, hm0]
        have hlen' : rest.length ≤ f := by
          simp only [List.length_cons] at hlen
          omega
        have hrec := ih rest i' L hlen' hm
          (fun j hj => hafter (j + 1) (by omega))
          (fun p hp => by
            have h' := hbefore (p + 1) (by omega)
            rw [List.drop_succ_cons] at h'
            omega)
        rw [hrec]
        rw [show i' + 1 + L = (i' + L) + 1 from by omega, List.drop_succ_cons]
      | some L0 =>
        have hL0pos : 1 ≤ L0 := matchLen_pos hm0
        simp only [lastMatchTailGo, hm0]
        rcases Nat.eq_zero_or_pos i with hi0 | hipos
        · subst hi0
          have hLL : L0 = L := by
            rw [List.drop_zero, hm0] at hm
            cases hm
            rfl
          subst hLL
          have hnone : lastMatchTailGo svc f ((c :: rest).drop L0) = none := by
            apply scan_none
            intro j
            rw [List.drop_drop]
            exact hafter (L0 + j) (by omega)
          rw [hnone, Nat.zero_add]
        · have hL0le : L0 ≤ i := by
            have h' := hbefore 0 hipos
            rw [List.drop_zero, hm0] at h'
            simpa using h'
          have hlen' : ((c :: rest).drop L0).length ≤ f := by
            simp only [List.length_drop, List.length_cons] at *
            omega
          have hrec := ih ((c :: rest).drop L0) (i - L0) L hlen'
            (by rw [List.drop_drop, show L0 + (i - L0) = i from by omega]
                exact hm)
            (fun j hj => by
              rw [List.drop_drop]
              exact hafter (L0 + j) (by omega))
            (fun p hp => by
              rw [List.drop_drop]
              have h' := hbefore (L0 + p) (by omega)
              omega)
          rw [hrec]
          show some (((c :: rest).drop L0).drop (i - L0 + L)) = _
          rw [List.drop_drop, show L0 + (i - L0 + L) = i + L from by omega]

/-! ## C2: the root getter -/

theorem nodeRoot_of_unsupplied {ft : FileType} {d : NodeData}
    {svcOpt : Option (List Str)} {st : NodeSt}
    (h : mkNode ft d svcOpt = Except.ok st)
    (hnone : d.root = none ∨ d.root = some []) :
    nodeRoot st = nodeRootInfer st := by
  obtain ⟨-, hst⟩ := mkNode_ok h
  subst hst
  show nodeRoot (stOfBag ft d svcOpt) = nodeRootInfer (stOfBag ft d svcOpt)
  unfold nodeRoot
  show (match d.root with
    | some r => if r = [] then nodeRootInfer (stOfBag ft d svcOpt)
        else some (stripRootSlash r)
    | none => nodeRootInfer (stOfBag ft d svcOpt)) = _
  rcases hnone with h0 | h0
  · rw [h0]
  · rw [h0]
    show (if ([] : Str) = [] then _ else _) = _
    rw [if_pos rfl]

/-- C2: for every constructed node, the root getter returns — (a) the
explicitly supplied root with its trailing slash stripped, when a root was
supplied; (b) `null` when no root was supplied and the source does not
match the DAV-service pattern; (c) when no root was supplied and the source
matches the pattern: the segment of the parent directory of the source that
follows the LAST service-token match of the split scan (the empty segment
coerced to `null`) — the hypotheses pin `i` as the position of the last
match, so the tie-break takes the last occurrence. -/
theorem c2_root_getter (ft : FileType) (d : NodeData)
    (svcOpt : Option (List Str)) (st : NodeSt)
    (h : mkNode ft d svcOpt = Except.ok st) :
    (∀ r, d.root = some r → r ≠ [] → nodeRoot st = some (stripRootSlash r)) ∧
    ((d.root = none ∨ d.root = some []) → ¬ nodeIsDavRessource st →
        nodeRoot st = none) ∧
    (∀ i L, (d.root = none ∨ d.root = some []) → nodeIsDavRessource st →
        matchLen st.svc ((posixDirname (nodeSource st)).drop i) = some L →
        (∀ j < (posixDirname (nodeSource st)).length + 1, i < j →
            matchLen st.svc ((posixDirname (nodeSource st)).drop j) = none) →
        (∀ p, p < i →
            p + (matchLen st.svc ((posixDirname (nodeSource st)).drop p)).getD 0
              ≤ i) →
        nodeRoot st =
          (if (posixDirname (nodeSource st)).drop (i + L) = [] then none
           else some ((posixDirname (nodeSource st)).drop (i + L)))) := by
  refine ⟨fun r hr hrne => nodeRoot_of_supplied h hr hrne, ?_, ?_⟩
  · intro hnone hdav
    rw [nodeRoot_of_unsupplied h hnone]
    unfold nodeRootInfer
    rw [if_neg hdav]
  · intro i L hnone hdav hm hafter hbefore
    have hafter' : ∀ j, i < j →
        matchLen st.svc ((posixDirname (nodeSource st)).drop j) = none := by
      intro j hj
      by_cases hjle : j < (posixDirname (nodeSource st)).length + 1
      · exact hafter j hjle hj
      · rw [List.drop_eq_nil_iff.mpr (by omega)]
        exact matchLen_nil
    have hscan : lastMatchTail st.svc (posixDirname (nodeSource st))
        = some ((posixDirname (nodeSource st)).drop (i + L)) := by
      unfold lastMatchTail
      exact scan_last _ _ i L (Nat.le_refl _) hm hafter' hbefore
    rw [nodeRoot_of_unsupplied h hnone]
    unfold nodeRootInfer
    rw [if_pos hdav]
    show jsPopOrNull (posixDirname (nodeSource st))
      (lastMatchTail st.svc (posixDirname (nodeSource st))) = _
    rw [hscan]
    rfl

/-- Witness for C2, exercising all three branches on the repository's test
inputs: supplied root `/files/emma/` is stripped to `/files/emma`; the
non-DAV source has a null root; the DAV source without a supplied root
infers `/files/emma/Photos` — the segment after the (single, hence last)
service match in the parent directory. -/
theorem c2_witness :
    nodeRoot (stOfBag FileType.file
        { bagDavFile with root := some (strOf "/files/emma/") } none)
      = some (strOf "/files/emma") ∧
    nodeRoot (stOfBag FileType.file bagNonDav none) = none ∧
    nodeRoot (stOfBag FileType.file bagDavFile none)
      = some (strOf "/files/emma/Photos") := by
  have h1 := (c2_root_getter FileType.file
      { bagDavFile with root := some (strOf "/files/emma/") } none
      (stOfBag FileType.file
        { bagDavFile with root := some (strOf "/files/emma/") } none)
      (by rfl)).1 (strOf "/files/emma/") rfl (by decide)
  have h2 := (c2_root_getter FileType.file bagNonDav none
      (stOfBag FileType.file bagNonDav none) (by rfl)).2.1
      (Or.inl rfl) (by decide)
  have h3 := (c2_root_getter FileType.file bagDavFile none
      (stOfBag FileType.file bagDavFile none) (by rfl)).2.2 25 14
      (Or.inl rfl) (by decide) (by decide) (by decide) (by decide)
  refine ⟨?_, h2, ?_⟩
  · rw [h1]; decide
  · rw [h3]; decide
